import Mathlib

/-!
Verification development for the document-localization core of the
VLM_Invoice repository (`image_processor.py`).

Shallow embedding conventions:
* numpy float arrays are modelled over `ℚ`; parallel arrays become `List`s.
* A bounding box `[x1, y1, x2, y2]` becomes the structure `Box`.
* PIL images become `Img`: a width, a height and a total pixel function
  (pixels are RGB triples of naturals; `preprocess_image` converts every
  input to RGB mode first, a dimension-preserving step, so the model carries
  RGB pixels throughout).
* External collaborators (the YOLO detector, PIL resampling/enhancement
  filters, cv2 mask resizing) are black boxes per the spec, so they are
  passed in as function parameters.
* `np.argsort` followed by `[::-1]` is modelled as a stable ascending
  argsort (insertion sort) followed by `List.reverse`; on distinct keys this
  is exactly `np.argsort`, and on the tie cases used below it matches
  numpy's concrete output as well.
* Python `int()` (truncation toward zero) becomes `pyInt`.
-/

namespace VLMInvoice

/-- RGB pixel. -/
abbrev Pix := ℕ × ℕ × ℕ

/-- A bounding box `[x1, y1, x2, y2]` in pixel coordinates. -/
structure Box where
  x1 : ℚ
  y1 : ℚ
  x2 : ℚ
  y2 : ℚ
deriving Inhabited, DecidableEq

/-- Box area `(x2 - x1) * (y2 - y1)` as computed throughout the source. -/
def boxArea (b : Box) : ℚ :=
  (b.x2 - b.x1) * (b.y2 - b.y1)

/-- The IoU value the inner loop of `filter_overlapping_detections` works
with: `0` when the intersection is degenerate (the code skips the check in
that case, which is the same as comparing against `0` for a nonnegative
threshold), `inter / union` when the intersection is positive and the union
positive, and `0` when the `union > 0` guard fails. -/
def iouVal (b1 b2 : Box) : ℚ :=
  let x1 := max b1.x1 b2.x1
  let y1 := max b1.y1 b2.y1
  let x2 := min b1.x2 b2.x2
  let y2 := min b1.y2 b2.y2
  if x1 < x2 ∧ y1 < y2 then
    let inter := (x2 - x1) * (y2 - y1)
    let union := boxArea b1 + boxArea b2 - inter
    if 0 < union then inter / union else 0
  else 0

/-- The suppression decision of the inner loop of
`filter_overlapping_detections`: the code computes an IoU only inside the
`x2 > x1 and y2 > y1` branch and there rejects when `iou > iou_threshold`;
outside that branch no check happens (`false`). -/
def overlapsAbove (t : ℚ) (b1 b2 : Box) : Bool :=
  let x1 := max b1.x1 b2.x1
  let y1 := max b1.y1 b2.y1
  let x2 := min b1.x2 b2.x2
  let y2 := min b1.y2 b2.y2
  if x1 < x2 ∧ y1 < y2 then decide (t < iouVal b1 b2) else false

/-- Division that signals (`none`) instead of dividing by zero; used to
state that the guarded `inter / union if union > 0 else 0` of the source
never divides by zero. -/
def divOption (a b : ℚ) : Option ℚ :=
  if b = 0 then none else some (a / b)

/-- The source's IoU expression with its actual division guard made
explicit: the division is attempted only under the `union > 0` guard, so a
`none` (division by zero) can never occur. -/
def iouChecked (b1 b2 : Box) : Option ℚ :=
  let x1 := max b1.x1 b2.x1
  let y1 := max b1.y1 b2.y1
  let x2 := min b1.x2 b2.x2
  let y2 := min b1.y2 b2.y2
  if x1 < x2 ∧ y1 < y2 then
    let inter := (x2 - x1) * (y2 - y1)
    let union := boxArea b1 + boxArea b2 - inter
    if 0 < union then divOption inter union else some 0
  else some 0

/-- `np.argsort(confs)[::-1]`: stable ascending argsort of the confidence
array, reversed. -/
def sortedIndicesDesc (confs : List ℚ) : List ℕ :=
  (List.insertionSort (fun i j => confs.getD i 0 ≤ confs.getD j 0)
    (List.range confs.length)).reverse

/-- The greedy acceptance loop of `filter_overlapping_detections`: walk the
remaining candidates in processing order, appending each one whose `accept`
test against the currently kept list succeeds. -/
def greedyKeep (accept : ℕ → List ℕ → Bool) (keep : List ℕ) : List ℕ → List ℕ
  | [] => keep
  | i :: rest =>
    if accept i keep then greedyKeep accept (keep ++ [i]) rest
    else greedyKeep accept keep rest

/-- `filter_overlapping_detections(boxes, confs, iou_threshold=0.3)` from
`image_processor.py`. -/
def filter_overlapping_detections (boxes : List Box) (confs : List ℚ)
    (iou_threshold : ℚ := 3/10) : List ℕ :=
  if boxes.length ≤ 1 then List.range boxes.length
  else
    match sortedIndicesDesc confs with
    | [] => []
    | top :: rest =>
      greedyKeep
        (fun i keep => keep.all fun k =>
          ! overlapsAbove iou_threshold (boxes.getD i default) (boxes.getD k default))
        [top] rest

/-- Modelled from the spec: IoU of two axis-aligned rectangles — a
degenerate (zero-area) intersection yields `0`, and a zero union (division
by zero) is guarded and treated as `0`. -/
def iouRef (b1 b2 : Box) : ℚ :=
  let iw := max 0 (min b1.x2 b2.x2 - max b1.x1 b2.x1)
  let ih := max 0 (min b1.y2 b2.y2 - max b1.y1 b2.y1)
  let inter := iw * ih
  let union := boxArea b1 + boxArea b2 - inter
  if union = 0 then 0 else inter / union

/-- Modelled from the spec: the greedy NMS-style reference algorithm —
process candidates in descending score order, start from the top-scoring
candidate, and accept each subsequent candidate if and only if its IoU with
every already-accepted box is `≤ iou_threshold`; the result is in
processing order. -/
def suppressRef (boxes : List Box) (confs : List ℚ) (iou_threshold : ℚ) : List ℕ :=
  if boxes.length ≤ 1 then List.range boxes.length
  else
    match sortedIndicesDesc confs with
    | [] => []
    | top :: rest =>
      greedyKeep
        (fun i keep => keep.all fun k =>
          decide (iouRef (boxes.getD i default) (boxes.getD k default) ≤ iou_threshold))
        [top] rest

/-- Python `int()`: truncation toward zero. -/
def pyInt (q : ℚ) : ℤ :=
  q.num.tdiv q.den

/-- An RGB raster image: width, height, and a total pixel function
(row, column ↦ pixel). -/
structure Img where
  w : ℕ
  h : ℕ
  pix : ℕ → ℕ → Pix

/-- numpy slicing `arr[y1:y2, x1:x2]` of a row-major image array, with
numpy's clamping of the stop bounds at the array's extent. -/
def npSlice (image : Img) (x1 y1 x2 y2 : ℕ) : Img :=
  ⟨min x2 image.w - x1, min y2 image.h - y1, fun r c => image.pix (y1 + r) (x1 + c)⟩

/-- A soft segmentation mask, addressed (row, column), values in `[0, 1]`. -/
abbrev Mask := ℕ → ℕ → ℚ

/-- The external `cv2.resize` collaborator: resample a mask to the given
(width, height). -/
abbrev MaskResize := Mask → ℕ → ℕ → Mask

/-- `crop_document_with_mask(image, mask, box)` from `image_processor.py`.
The external `cv2.resize` is the `resizeMask` parameter. Box coordinates
are truncated with Python `int()`; under the spec's in-bounds precondition
(§4.2) the coordinates are nonnegative, so `Int.toNat` is lossless. The
white background is `np.ones_like(cropped) * 255`, and
`np.where(mask_3channel > 0.5, cropped, white_bg)` picks per pixel (the
mask is stacked identically over the three channels). -/
def crop_document_with_mask (resizeMask : MaskResize) (image : Img)
    (mask : Option Mask) (box : Box) : Img :=
  let x1 := (pyInt box.x1).toNat
  let y1 := (pyInt box.y1).toNat
  let x2 := (pyInt box.x2).toNat
  let y2 := (pyInt box.y2).toNat
  let cropped := npSlice image x1 y1 x2 y2
  match mask with
  | some m =>
    let mask_resized := resizeMask m image.w image.h
    let mask_cropped : Mask := fun r c => mask_resized (y1 + r) (x1 + c)
    ⟨cropped.w, cropped.h,
      fun r c => if 1/2 < mask_cropped r c then cropped.pix r c else (255, 255, 255)⟩
  | none => cropped

/-- The external PIL collaborators used by `preprocess_image`: the LANCZOS
resampler (source image, target width/height, then pixel coordinates) and
the contrast/sharpness/brightness enhancement filters (factor, image, pixel
coordinates). PIL's enhancement filters return an image of the same size,
which these types enforce. -/
structure PILOps where
  resample : Img → ℕ → ℕ → ℕ → ℕ → Pix
  contrast : ℚ → Img → ℕ → ℕ → Pix
  sharpness : ℚ → Img → ℕ → ℕ → Pix
  brightness : ℚ → Img → ℕ → ℕ → Pix

/-- `preprocess_image(image)` from `image_processor.py`. The initial
RGB-mode conversion is dimension-preserving and the model's images are
already RGB pixel grids, so it is absorbed into the model; the resize
branch and the three enhancement passes are kept exactly. -/
def preprocess_image (ops : PILOps) (image : Img) : Img :=
  let image :=
    if image.w < 1000 ∨ image.h < 1000 then
      let scale : ℚ := max (1000 / (image.w : ℚ)) (1000 / (image.h : ℚ))
      let nw := (pyInt ((image.w : ℚ) * scale)).toNat
      let nh := (pyInt ((image.h : ℚ) * scale)).toNat
      ⟨nw, nh, ops.resample image nw nh⟩
    else image
  let image := ⟨image.w, image.h, ops.contrast (3/2) image⟩
  let image := ⟨image.w, image.h, ops.sharpness 2 image⟩
  ⟨image.w, image.h, ops.brightness (11/10) image⟩

/-- Trivial PIL collaborators used by witnesses (identity pixel grids). -/
def opsId : PILOps :=
  ⟨fun img _ _ => img.pix, fun _ img => img.pix, fun _ img => img.pix, fun _ img => img.pix⟩

/-- The detector output consumed by `extract_documents`
(`results[0].boxes.xyxy`, `results[0].boxes.conf`, and optionally
`results[0].masks.data`, parallel lists). -/
structure DetOutput where
  boxes : List Box
  confs : List ℚ
  masks : Option (List Mask)

/-- A loaded YOLO model: maps `(image, conf, iou)` to a detector output
(the external `model.predict` call). -/
abbrev Model := Img → ℚ → ℚ → DetOutput

/-- The `valid_indices` area-ratio filter loop of `extract_documents`: keep
index `i` iff its box area over the image area lies strictly between
`min_area_ratio` and `max_area_ratio`. -/
def areaFilterIndices (boxes : List Box) (img_area : ℚ)
    (min_area_ratio max_area_ratio : ℚ) : List ℕ :=
  (List.range boxes.length).filter fun i =>
    let b := boxes.getD i default
    let area := (b.x2 - b.x1) * (b.y2 - b.y1)
    let ratio := area / img_area
    decide (min_area_ratio < ratio ∧ ratio < max_area_ratio)

/-- `tuple(map(int, box))`: the int-truncated box tuple stored in each
returned document. -/
def boxIntTuple (b : Box) : ℤ × ℤ × ℤ × ℤ :=
  (pyInt b.x1, pyInt b.y1, pyInt b.x2, pyInt b.y2)

/-- The comparison of `documents.sort(key=lambda x: x[1], reverse=True)`:
descending by the confidence (second) component. Python's `list.sort` is
stable; `reverse=True` reverses the comparison, not the output, so the
model sorts with a stable insertion sort under this relation. -/
def confDesc {α : Type} (a b : Img × ℚ × α) : Prop :=
  b.2.1 ≤ a.2.1

instance instDecidableConfDesc {α : Type} : DecidableRel (@confDesc α) := fun a b =>
  inferInstanceAs (Decidable (b.2.1 ≤ a.2.1))

instance instTotalConfDesc {α : Type} : IsTotal (Img × ℚ × α) confDesc :=
  ⟨fun a b => le_total b.2.1 a.2.1⟩

instance instTransConfDesc {α : Type} : IsTrans (Img × ℚ × α) confDesc :=
  ⟨fun _ _ _ h1 h2 => le_trans h2 h1⟩

/-- `extract_documents(image, model_path, confidence=0.5, iou=0.6,
preprocess=True, min_area_ratio=0.02, max_area_ratio=0.8)` from
`image_processor.py`. The YOLO constructor is the `loadModel` parameter,
applied — as in the source — to the hard-coded checkpoint path, never to
`model_path`. Returns `(cropped_document, confidence, int_box)` tuples
sorted by confidence descending. -/
def extract_documents (ops : PILOps) (loadModel : String → Model)
    (resizeMask : MaskResize) (image : Img) (model_path : String)
    (confidence : ℚ := 1/2) (iou : ℚ := 3/5) (preprocess : Bool := true)
    (min_area_ratio : ℚ := 1/50) (max_area_ratio : ℚ := 4/5) :
    List (Img × ℚ × (ℤ × ℤ × ℤ × ℤ)) :=
  let image := if preprocess then preprocess_image ops image else image
  let model := loadModel "invoice-extractor-final/best (1).pt"
  let results := model image confidence iou
  if results.boxes.length = 0 then []
  else
    let img_area : ℚ := (image.w : ℚ) * (image.h : ℚ)
    let valid_indices := areaFilterIndices results.boxes img_area min_area_ratio max_area_ratio
    if valid_indices.isEmpty then []
    else
      let filtered_boxes := valid_indices.map fun i => results.boxes.getD i default
      let filtered_confs := valid_indices.map fun i => results.confs.getD i 0
      let masks := results.masks.map fun ms => valid_indices.map fun i => ms.getD i (fun _ _ => 0)
      let keep_indices := filter_overlapping_detections filtered_boxes filtered_confs
      let documents := keep_indices.map fun i =>
        (crop_document_with_mask resizeMask image (masks.map fun ms => ms.getD i (fun _ _ => 0))
            (filtered_boxes.getD i default),
          filtered_confs.getD i 0,
          boxIntTuple (filtered_boxes.getD i default))
      List.insertionSort confDesc documents

/-- The same localization pipeline as `extract_documents`, but each
returned Candidate keeps its exact source box (the source truncates it to
an int tuple at the very end; the truncation does not touch the confidence
key the final sort uses, so the two agree up to that projection — proved in
the C3 theorem). -/
def localizeCandidates (ops : PILOps) (loadModel : String → Model)
    (resizeMask : MaskResize) (image : Img) (model_path : String)
    (confidence : ℚ := 1/2) (iou : ℚ := 3/5) (preprocess : Bool := true)
    (min_area_ratio : ℚ := 1/50) (max_area_ratio : ℚ := 4/5) :
    List (Img × ℚ × Box) :=
  let image := if preprocess then preprocess_image ops image else image
  let model := loadModel "invoice-extractor-final/best (1).pt"
  let results := model image confidence iou
  if results.boxes.length = 0 then []
  else
    let img_area : ℚ := (image.w : ℚ) * (image.h : ℚ)
    let valid_indices := areaFilterIndices results.boxes img_area min_area_ratio max_area_ratio
    if valid_indices.isEmpty then []
    else
      let filtered_boxes := valid_indices.map fun i => results.boxes.getD i default
      let filtered_confs := valid_indices.map fun i => results.confs.getD i 0
      let masks := results.masks.map fun ms => valid_indices.map fun i => ms.getD i (fun _ _ => 0)
      let keep_indices := filter_overlapping_detections filtered_boxes filtered_confs
      let documents := keep_indices.map fun i =>
        (crop_document_with_mask resizeMask image (masks.map fun ms => ms.getD i (fun _ _ => 0))
            (filtered_boxes.getD i default),
          filtered_confs.getD i 0,
          filtered_boxes.getD i default)
      List.insertionSort confDesc documents

/-- `extract_single_document(image, model_path, confidence=0.5, iou=0.6,
preprocess=True)` from `image_processor.py`: the first (highest-confidence)
document of `extract_documents`, or `None`. -/
def extract_single_document (ops : PILOps) (loadModel : String → Model)
    (resizeMask : MaskResize) (image : Img) (model_path : String)
    (confidence : ℚ := 1/2) (iou : ℚ := 3/5) (preprocess : Bool := true) :
    Option (Img × ℚ) :=
  let documents :=
    extract_documents ops loadModel resizeMask image model_path confidence iou preprocess
  match documents with
  | (doc, conf, _) :: _ => some (doc, conf)
  | [] => none

/-- A detector that finds nothing, used by witnesses. -/
def modelEmpty : Model := fun _ _ _ => ⟨[], [], none⟩

/-- A loader returning `modelEmpty` for every path, used by witnesses. -/
def loadConst : String → Model := fun _ => modelEmpty

/-- Concrete 4×4 image used by witnesses. -/
def imgA : Img := ⟨4, 4, fun r c => (r, c, 0)⟩

/-- All-ones mask used by witnesses. -/
def maskOnes : Mask := fun _ _ => 1

/-- Identity mask resampler used by witnesses. -/
def resizeId : MaskResize := fun m _ _ => m

/-! ### Helper lemmas -/

theorem greedyKeep_congr {a1 a2 : ℕ → List ℕ → Bool}
    (h : ∀ i ks, a1 i ks = a2 i ks) :
    ∀ (l keep : List ℕ), greedyKeep a1 keep l = greedyKeep a2 keep l := by
  intro l
  induction l with
  | nil => intro keep; rfl
  | cons i rest ih =>
    intro keep
    rw [greedyKeep, greedyKeep, h i keep]
    by_cases hc : a2 i keep = true
    · rw [if_pos hc, if_pos hc]; exact ih _
    · rw [if_neg hc, if_neg hc]; exact ih _

/-- The acceptance test actually performed by the source
(`not (iou > threshold)`, computed only on a positive intersection) agrees
with the spec-side test `iouRef ≤ threshold` for every nonnegative
threshold. -/
theorem not_overlapsAbove_eq {t : ℚ} (ht : 0 ≤ t) (b1 b2 : Box) :
    (! overlapsAbove t b1 b2) = decide (iouRef b1 b2 ≤ t) := by
  simp only [overlapsAbove, iouVal, iouRef, boxArea]
  by_cases hx : max b1.x1 b2.x1 < min b1.x2 b2.x2
  · by_cases hy : max b1.y1 b2.y1 < min b1.y2 b2.y2
    · rw [if_pos ⟨hx, hy⟩, if_pos ⟨hx, hy⟩,
        max_eq_right (le_of_lt (sub_pos.mpr hx)), max_eq_right (le_of_lt (sub_pos.mpr hy))]
      set inter := (min b1.x2 b2.x2 - max b1.x1 b2.x1) * (min b1.y2 b2.y2 - max b1.y1 b2.y1) with hinter
      set union := (b1.x2 - b1.x1) * (b1.y2 - b1.y1) + (b2.x2 - b2.x1) * (b2.y2 - b2.y1) - inter
        with hunion
      have hipos : 0 < inter := mul_pos (sub_pos.mpr hx) (sub_pos.mpr hy)
      rcases lt_trichotomy 0 union with hu | hu | hu
      · rw [if_pos hu, if_neg (ne_of_gt hu)]
        by_cases hlt : t < inter / union
        · simp [hlt, not_le.mpr hlt]
        · simp [hlt, not_lt.mp hlt]
      · rw [if_neg (by rw [← hu]; exact lt_irrefl 0), if_pos hu.symm]
        simp [not_lt.mpr ht, ht]
      · rw [if_neg (by exact fun h => absurd (h.trans hu) (lt_irrefl 0)), if_neg (ne_of_lt hu)]
        have hneg : inter / union ≤ 0 :=
          div_nonpos_iff.mpr (Or.inl ⟨le_of_lt hipos, le_of_lt hu⟩)
        simp [not_lt.mpr ht, hneg.trans ht]
    · rw [if_neg (fun h => hy h.2)]
      have hih : max 0 (min b1.y2 b2.y2 - max b1.y1 b2.y1) = 0 :=
        max_eq_left (sub_nonpos.mpr (not_lt.mp hy))
      rw [hih, mul_zero]
      by_cases hu : (b1.x2 - b1.x1) * (b1.y2 - b1.y1) + (b2.x2 - b2.x1) * (b2.y2 - b2.y1) - 0 = 0
      · simp [hu, ht]
      · simp [hu, ht]
  · rw [if_neg (fun h => hx h.1)]
    have hiw : max 0 (min b1.x2 b2.x2 - max b1.x1 b2.x1) = 0 :=
      max_eq_left (sub_nonpos.mpr (not_lt.mp hx))
    rw [hiw, zero_mul]
    by_cases hu : (b1.x2 - b1.x1) * (b1.y2 - b1.y1) + (b2.x2 - b2.x1) * (b2.y2 - b2.y1) - 0 = 0
    · simp [hu, ht]
    · simp [hu, ht]

theorem pyInt_eq_floor {q : ℚ} (hq : 0 ≤ q) : pyInt q = ⌊q⌋ := by
  rw [pyInt, Rat.floor_def]
  exact Int.tdiv_eq_ediv (Rat.num_nonneg.mpr hq) (Int.natCast_nonneg q.den)

theorem pair_sublist_range {i j n : ℕ} (hij : i < j) (hj : j < n) :
    List.Sublist [i, j] (List.range n) := by
  induction n with
  | zero => omega
  | succ n ih =>
    rw [List.range_succ]
    by_cases h : j < n
    · exact (ih h).trans (List.sublist_append_left _ _)
    · have hj' : j = n := by omega
      subst hj'
      exact List.Sublist.append
        (List.singleton_sublist.mpr (List.mem_range.mpr hij)) (List.Sublist.refl [j])

theorem iouVal_comm (b1 b2 : Box) : iouVal b1 b2 = iouVal b2 b1 := by
  simp only [iouVal, boxArea]
  rw [max_comm b2.x1 b1.x1, max_comm b2.y1 b1.y1, min_comm b2.x2 b1.x2, min_comm b2.y2 b1.y2,
    add_comm ((b2.x2 - b2.x1) * (b2.y2 - b2.y1)) ((b1.x2 - b1.x1) * (b1.y2 - b1.y1))]

theorem iouVal_le_of_not_overlapsAbove {t : ℚ} (ht : 0 ≤ t) {b1 b2 : Box}
    (h : overlapsAbove t b1 b2 = false) : iouVal b1 b2 ≤ t := by
  by_cases hpos : max b1.x1 b2.x1 < min b1.x2 b2.x2 ∧ max b1.y1 b2.y1 < min b1.y2 b2.y2
  · have h' := h
    simp only [overlapsAbove] at h'
    rw [if_pos hpos] at h'
    exact not_lt.mp (of_decide_eq_false h')
  · have h0 : iouVal b1 b2 = 0 := by
      simp only [iouVal]
      rw [if_neg hpos]
    rw [h0]
    exact ht

theorem mem_of_mem_greedyKeep {accept : ℕ → List ℕ → Bool} :
    ∀ (l keep : List ℕ) (x : ℕ), x ∈ greedyKeep accept keep l → x ∈ keep ∨ x ∈ l := by
  intro l
  induction l with
  | nil => intro keep x hx; exact Or.inl hx
  | cons i rest ih =>
    intro keep x hx
    rw [greedyKeep] at hx
    by_cases hc : accept i keep = true
    · rw [if_pos hc] at hx
      rcases ih _ x hx with h | h
      · rcases List.mem_append.mp h with h | h
        · exact Or.inl h
        · exact Or.inr (List.mem_singleton.mp h ▸ List.mem_cons_self i rest)
      · exact Or.inr (List.mem_cons_of_mem _ h)
    · rw [if_neg hc] at hx
      rcases ih _ x hx with h | h
      · exact Or.inl h
      · exact Or.inr (List.mem_cons_of_mem _ h)

theorem pairwise_greedyKeep {R : ℕ → ℕ → Prop} {accept : ℕ → List ℕ → Bool}
    (hacc : ∀ i ks, accept i ks = true → ∀ k ∈ ks, R k i) :
    ∀ (l keep : List ℕ), keep.Pairwise R → (greedyKeep accept keep l).Pairwise R := by
  intro l
  induction l with
  | nil => intro keep h; exact h
  | cons i rest ih =>
    intro keep h
    rw [greedyKeep]
    by_cases hc : accept i keep = true
    · rw [if_pos hc]
      refine ih _ (List.pairwise_append.mpr ⟨h, List.pairwise_singleton _ _, ?_⟩)
      intro a ha b hb
      rw [List.mem_singleton.mp hb]
      exact hacc i keep hc a ha
    · rw [if_neg hc]
      exact ih _ h

theorem mem_filter_overlapping_lt {boxes : List Box} {confs : List ℚ} {t : ℚ}
    (hlen : boxes.length = confs.length) :
    ∀ i ∈ filter_overlapping_detections boxes confs t, i < confs.length := by
  intro i hi
  unfold filter_overlapping_detections at hi
  by_cases h : boxes.length ≤ 1
  · rw [if_pos h] at hi
    exact hlen ▸ List.mem_range.mp hi
  · rw [if_neg h] at hi
    cases hs : sortedIndicesDesc confs with
    | nil =>
      rw [hs] at hi
      exact absurd hi (List.not_mem_nil i)
    | cons top rest =>
      rw [hs] at hi
      have h2 : i ∈ sortedIndicesDesc confs := by
        rw [hs]
        rcases mem_of_mem_greedyKeep _ _ _ hi with hm | hm
        · rw [List.mem_singleton.mp hm]
          exact List.mem_cons_self _ _
        · exact List.mem_cons_of_mem _ hm
      have h3 : i ∈ List.range confs.length := by
        simp only [sortedIndicesDesc, List.mem_reverse] at h2
        exact (List.mem_insertionSort _).mp h2
      exact List.mem_range.mp h3

theorem pairwise_iou_filter_overlapping (boxes : List Box) (confs : List ℚ) {t : ℚ}
    (ht : 0 ≤ t) :
    (filter_overlapping_detections boxes confs t).Pairwise
      (fun i j => iouVal (boxes.getD i default) (boxes.getD j default) ≤ t) := by
  unfold filter_overlapping_detections
  by_cases h : boxes.length ≤ 1
  · rw [if_pos h]
    rcases Nat.le_one_iff_eq_zero_or_eq_one.mp h with h0 | h1
    · rw [h0]
      exact List.Pairwise.nil
    · rw [h1]
      exact List.pairwise_singleton _ _
  · rw [if_neg h]
    cases hs : sortedIndicesDesc confs with
    | nil => exact List.Pairwise.nil
    | cons top rest =>
      refine pairwise_greedyKeep ?_ rest [top] (List.pairwise_singleton _ _)
      intro i ks hacc k hk
      have hall := List.all_eq_true.mp hacc k hk
      have hfalse : overlapsAbove t (boxes.getD i default) (boxes.getD k default) = false := by
        simpa using hall
      rw [iouVal_comm]
      exact iouVal_le_of_not_overlapsAbove ht hfalse

theorem insertionSort_proj {α β : Type} (f : α → β) (l : List (Img × ℚ × α)) :
    List.map (fun d => (d.1, d.2.1, f d.2.2)) (List.insertionSort confDesc l) =
      List.insertionSort confDesc (List.map (fun d => (d.1, d.2.1, f d.2.2)) l) :=
  List.map_insertionSort confDesc confDesc _ l (fun a _ b _ => Iff.rfl)

/-- Every index kept by the overlap suppression of the filtered arrays
points at a box whose area ratio passed the strict area window. -/
theorem keep_box_window (rboxes : List Box) (rconfs : List ℚ)
    (imgArea mnr mxr t : ℚ) :
    ∀ i ∈ filter_overlapping_detections
        ((areaFilterIndices rboxes imgArea mnr mxr).map fun k => rboxes.getD k default)
        ((areaFilterIndices rboxes imgArea mnr mxr).map fun k => rconfs.getD k 0) t,
      mnr < boxArea (((areaFilterIndices rboxes imgArea mnr mxr).map
          fun k => rboxes.getD k default).getD i default) / imgArea ∧
      boxArea (((areaFilterIndices rboxes imgArea mnr mxr).map
          fun k => rboxes.getD k default).getD i default) / imgArea < mxr := by
  intro i hik
  set V := areaFilterIndices rboxes imgArea mnr mxr with hV
  have hlen : (V.map fun k => rboxes.getD k default).length
      = (V.map fun k => rconfs.getD k 0).length := by simp
  have hilt : i < (V.map fun k => rconfs.getD k 0).length :=
    mem_filter_overlapping_lt hlen i hik
  have hiv : i < V.length := by simpa using hilt
  have hbox : (V.map fun k => rboxes.getD k default).getD i default
      = rboxes.getD V[i] default := by
    rw [List.getD_eq_getElem _ _ (by simpa using hiv), List.getElem_map]
  have hmem2 : V[i] ∈ areaFilterIndices rboxes imgArea mnr mxr := by
    rw [← hV]
    exact List.getElem_mem hiv
  simp only [areaFilterIndices, List.mem_filter, decide_eq_true_eq] at hmem2
  rw [hbox]
  simpa [boxArea] using hmem2.2

/-! ### Claim theorems -/

/-- Claim C1: `filter_overlapping_detections` returns exactly the indices of
the spec's greedy reference algorithm (descending-score processing order,
accepted set seeded with the top-scoring candidate, a candidate accepted iff
its IoU with every accepted box is `≤ iou_threshold`, output in processing
order), and for `N ≤ 1` it returns all indices unchanged (`[]` for `N = 0`,
`[0]` for `N = 1`); the threshold ranges over the spec's `(0,1)` domain. -/
theorem c1_suppress_matches_greedy_reference (boxes : List Box) (confs : List ℚ)
    (t : ℚ) (ht0 : 0 < t) (ht1 : t < 1) :
    filter_overlapping_detections boxes confs t = suppressRef boxes confs t ∧
    (boxes.length = 0 → filter_overlapping_detections boxes confs t = []) ∧
    (boxes.length = 1 → filter_overlapping_detections boxes confs t = [0]) := by
  refine ⟨?_, ?_, ?_⟩
  · unfold filter_overlapping_detections suppressRef
    by_cases h : boxes.length ≤ 1
    · rw [if_pos h, if_pos h]
    · rw [if_neg h, if_neg h]
      cases sortedIndicesDesc confs with
      | nil => rfl
      | cons top rest =>
        exact greedyKeep_congr (fun i ks =>
          congrArg (List.all ks)
            (funext fun k => not_overlapsAbove_eq (le_of_lt ht0) _ _)) rest [top]
  · intro h
    unfold filter_overlapping_detections
    rw [if_pos (by omega), h]
    rfl
  · intro h
    unfold filter_overlapping_detections
    rw [if_pos (by omega), h]
    rfl

/-- Claim C1 witness: the theorem applied at a concrete pair of identical
boxes with scores 0.9 and 0.8 at threshold 0.3; the evaluated result keeps
only the higher-scoring candidate's index. -/
theorem c1_suppress_matches_greedy_reference_witness :
    filter_overlapping_detections [⟨0,0,4,4⟩, ⟨0,0,4,4⟩] [9/10, 8/10] (3/10) =
      suppressRef [⟨0,0,4,4⟩, ⟨0,0,4,4⟩] [9/10, 8/10] (3/10) ∧
    filter_overlapping_detections [⟨0,0,4,4⟩, ⟨0,0,4,4⟩] [9/10, 8/10] (3/10) = [0] :=
  ⟨(c1_suppress_matches_greedy_reference _ _ _ (by norm_num) (by norm_num)).1,
   by norm_num [filter_overlapping_detections, sortedIndicesDesc, greedyKeep,
     overlapsAbove, iouVal, boxArea, List.insertionSort, List.orderedInsert]⟩

/-- Claim C4 counterexample: two equal-score disjoint boxes. The claim's
stable-in-original-order reading demands the output `[0, 1]`; the code's
`np.argsort(confs)[::-1]` reverses the tied pair, so the output is
`[1, 0]`. -/
theorem c4_counterexample :
    filter_overlapping_detections [⟨0,0,1,1⟩, ⟨10,10,11,11⟩] [1/2, 1/2] (3/10) = [1, 0] ∧
    filter_overlapping_detections [⟨0,0,1,1⟩, ⟨10,10,11,11⟩] [1/2, 1/2] (3/10) ≠ [0, 1] := by
  constructor
  · norm_num [filter_overlapping_detections, sortedIndicesDesc, greedyKeep,
      overlapsAbove, iouVal, boxArea, List.insertionSort, List.orderedInsert]
  · norm_num [filter_overlapping_detections, sortedIndicesDesc, greedyKeep,
      overlapsAbove, iouVal, boxArea, List.insertionSort, List.orderedInsert]

/-- Claim C4 as amended: the descending-score order used by
`filter_overlapping_detections` is the reversal of a stable ascending sort,
so candidates with equal scores are processed in **reversed** relative
original input order: for `i < j` with equal scores, index `j` comes before
index `i` in the processing order. -/
theorem c4_equal_scores_processed_reversed (confs : List ℚ) (i j : ℕ)
    (hij : i < j) (hj : j < confs.length)
    (heq : confs.getD i 0 = confs.getD j 0) :
    List.Sublist [j, i] (sortedIndicesDesc confs) := by
  have h1 : List.Sublist [i, j] (List.insertionSort
      (fun a b => confs.getD a 0 ≤ confs.getD b 0) (List.range confs.length)) :=
    List.pair_sublist_insertionSort (le_of_eq heq) (pair_sublist_range hij hj)
  have h2 := h1.reverse
  simpa [sortedIndicesDesc] using h2

/-- Claim C4 witness for the amended claim: two equal scores; index 1 is
processed before index 0. -/
theorem c4_equal_scores_processed_reversed_witness :
    List.Sublist [1, 0] (sortedIndicesDesc [1/2, 1/2]) :=
  c4_equal_scores_processed_reversed [1/2, 1/2] 0 1 (by norm_num) (by norm_num) (by norm_num)

/-- Claim C7: in the IoU computation of `filter_overlapping_detections`, a
degenerate (zero-area) intersection yields IoU 0 and never suppresses the
candidate; with a positive intersection, a non-positive union also yields
IoU 0 under the `union > 0` guard; and the guarded division never divides
by zero (`iouChecked` always returns `some`). -/
theorem c7_iou_division_guarded (b1 b2 : Box) (t : ℚ) :
    (¬ (max b1.x1 b2.x1 < min b1.x2 b2.x2 ∧ max b1.y1 b2.y1 < min b1.y2 b2.y2) →
      iouVal b1 b2 = 0 ∧ overlapsAbove t b1 b2 = false) ∧
    (boxArea b1 + boxArea b2 -
        (min b1.x2 b2.x2 - max b1.x1 b2.x1) * (min b1.y2 b2.y2 - max b1.y1 b2.y1) ≤ 0 →
      iouVal b1 b2 = 0) ∧
    iouChecked b1 b2 = some (iouVal b1 b2) := by
  refine ⟨?_, ?_, ?_⟩
  · intro h
    constructor
    · simp only [iouVal]
      rw [if_neg h]
    · simp only [overlapsAbove]
      rw [if_neg h]
  · intro h
    simp only [iouVal]
    by_cases hpos : max b1.x1 b2.x1 < min b1.x2 b2.x2 ∧ max b1.y1 b2.y1 < min b1.y2 b2.y2
    · rw [if_pos hpos, if_neg (not_lt.mpr h)]
    · rw [if_neg hpos]
  · simp only [iouVal, iouChecked, divOption]
    by_cases hpos : max b1.x1 b2.x1 < min b1.x2 b2.x2 ∧ max b1.y1 b2.y1 < min b1.y2 b2.y2
    · rw [if_pos hpos, if_pos hpos]
      by_cases hu : 0 < boxArea b1 + boxArea b2 -
          (min b1.x2 b2.x2 - max b1.x1 b2.x1) * (min b1.y2 b2.y2 - max b1.y1 b2.y1)
      · rw [if_pos hu, if_pos hu, if_neg (ne_of_gt hu)]
      · rw [if_neg hu, if_neg hu]
    · rw [if_neg hpos, if_neg hpos]

/-- Claim C7 witness: the theorem applied to two disjoint concrete boxes —
the degenerate intersection yields IoU 0 and no suppression, and the
guarded division evaluates to `some 0`. -/
theorem c7_iou_division_guarded_witness :
    iouVal ⟨0,0,1,1⟩ ⟨5,5,6,6⟩ = 0 ∧ overlapsAbove (3/10) ⟨0,0,1,1⟩ ⟨5,5,6,6⟩ = false :=
  (c7_iou_division_guarded ⟨0,0,1,1⟩ ⟨5,5,6,6⟩ (3/10)).1
    (by norm_num [max_def, min_def])

/-- Claim C6: `crop_document_with_mask` with no mask returns exactly the
rectangular crop of the image at the integer-truncated box coordinates,
unmodified; with a mask, the mask is resampled to the full image resolution
first, then cropped to the same rectangle, and each output pixel is the
original image pixel where the cropped resampled mask exceeds 0.5 and the
fixed white pixel `(255, 255, 255)` otherwise. -/
theorem c6_mask_compositor (resizeMask : MaskResize) (image : Img) (box : Box) (m : Mask)
    (hx1 : 0 ≤ box.x1) (hy1 : 0 ≤ box.y1)
    (hx2 : (pyInt box.x2).toNat ≤ image.w) (hy2 : (pyInt box.y2).toNat ≤ image.h) :
    (crop_document_with_mask resizeMask image none box =
      npSlice image (pyInt box.x1).toNat (pyInt box.y1).toNat
        (pyInt box.x2).toNat (pyInt box.y2).toNat) ∧
    ((crop_document_with_mask resizeMask image none box).w
        = (pyInt box.x2).toNat - (pyInt box.x1).toNat ∧
      (crop_document_with_mask resizeMask image none box).h
        = (pyInt box.y2).toNat - (pyInt box.y1).toNat ∧
      ∀ r c, (crop_document_with_mask resizeMask image none box).pix r c
        = image.pix ((pyInt box.y1).toNat + r) ((pyInt box.x1).toNat + c)) ∧
    ((crop_document_with_mask resizeMask image (some m) box).w
        = (pyInt box.x2).toNat - (pyInt box.x1).toNat ∧
      (crop_document_with_mask resizeMask image (some m) box).h
        = (pyInt box.y2).toNat - (pyInt box.y1).toNat) ∧
    ∀ r c, (crop_document_with_mask resizeMask image (some m) box).pix r c =
      if 1/2 < resizeMask m image.w image.h
          ((pyInt box.y1).toNat + r) ((pyInt box.x1).toNat + c)
      then image.pix ((pyInt box.y1).toNat + r) ((pyInt box.x1).toNat + c)
      else (255, 255, 255) := by
  refine ⟨rfl, ⟨?_, ?_, fun r c => rfl⟩, ⟨?_, ?_⟩, fun r c => rfl⟩
  · simp [crop_document_with_mask, npSlice, min_eq_left hx2]
  · simp [crop_document_with_mask, npSlice, min_eq_left hy2]
  · simp [crop_document_with_mask, npSlice, min_eq_left hx2]
  · simp [crop_document_with_mask, npSlice, min_eq_left hy2]

/-- Claim C6 witness: the theorem applied to a concrete 4×4 image with box
`(1,1,3,3)` and the all-ones mask under the identity resampler; the
resulting crop is 2×2 and its top-left pixel is the original pixel at
(1,1). -/
theorem c6_mask_compositor_witness :
    (crop_document_with_mask resizeId imgA (some maskOnes) ⟨1,1,3,3⟩).w = 2 ∧
    (crop_document_with_mask resizeId imgA (some maskOnes) ⟨1,1,3,3⟩).pix 0 0 = (1, 1, 0) := by
  have h := c6_mask_compositor resizeId imgA ⟨1,1,3,3⟩ maskOnes
    (by norm_num) (by norm_num) (by decide) (by decide)
  constructor
  · rw [h.2.2.1.1]
    decide
  · rw [h.2.2.2 0 0]
    have h1 : (pyInt (1:ℚ)).toNat = 1 := by decide
    norm_num [resizeId, maskOnes, imgA, h1]

/-- Claim C9: `preprocess_image` never downscales; if the shorter dimension
is below 1000 it rescales both dimensions by the factor
`1000 / min(width, height)` (the smallest factor bringing the shorter
dimension to 1000), truncated per Python `int()`, which brings both output
dimensions to at least 1000; an image whose dimensions are both at least
1000 keeps its dimensions. -/
theorem c9_enhancer_upscales (ops : PILOps) (image : Img)
    (hw : 0 < image.w) (hh : 0 < image.h) :
    (1000 ≤ image.w → 1000 ≤ image.h →
      (preprocess_image ops image).w = image.w ∧
      (preprocess_image ops image).h = image.h) ∧
    (min image.w image.h < 1000 →
      (preprocess_image ops image).w
        = (pyInt ((image.w : ℚ) * (1000 / ((min image.w image.h : ℕ) : ℚ)))).toNat ∧
      (preprocess_image ops image).h
        = (pyInt ((image.h : ℚ) * (1000 / ((min image.w image.h : ℕ) : ℚ)))).toNat ∧
      1000 ≤ (preprocess_image ops image).w ∧
      1000 ≤ (preprocess_image ops image).h) ∧
    (image.w ≤ (preprocess_image ops image).w ∧
      image.h ≤ (preprocess_image ops image).h) := by
  have hWQ : (0:ℚ) < (image.w : ℚ) := by exact_mod_cast hw
  have hHQ : (0:ℚ) < (image.h : ℚ) := by exact_mod_cast hh
  have hmax : max ((1000:ℚ) / image.w) (1000 / image.h)
      = 1000 / ((min image.w image.h : ℕ) : ℚ) := by
    rcases le_total image.w image.h with h | h
    · rw [min_eq_left h]
      exact max_eq_left (div_le_div_of_nonneg_left (by norm_num) hWQ (by exact_mod_cast h))
    · rw [min_eq_right h]
      exact max_eq_right (div_le_div_of_nonneg_left (by norm_num) hHQ (by exact_mod_cast h))
  by_cases hcond : image.w < 1000 ∨ image.h < 1000
  · have hm : min image.w image.h < 1000 := min_lt_iff.mpr hcond
    have hm0 : 0 < min image.w image.h := lt_min hw hh
    have hmQ : (0:ℚ) < ((min image.w image.h : ℕ) : ℚ) := by exact_mod_cast hm0
    have hw' : (preprocess_image ops image).w
        = (pyInt ((image.w : ℚ) * (1000 / ((min image.w image.h : ℕ) : ℚ)))).toNat := by
      simp [preprocess_image, hcond, hmax]
    have hh' : (preprocess_image ops image).h
        = (pyInt ((image.h : ℚ) * (1000 / ((min image.w image.h : ℕ) : ℚ)))).toNat := by
      simp [preprocess_image, hcond, hmax]
    have hscale0 : (0:ℚ) ≤ 1000 / ((min image.w image.h : ℕ) : ℚ) := by positivity
    have hscale1 : (1:ℚ) ≤ 1000 / ((min image.w image.h : ℕ) : ℚ) := by
      rw [le_div_iff₀ hmQ, one_mul]
      exact_mod_cast le_of_lt hm
    have key : ∀ d : ℕ, min image.w image.h ≤ d → 0 < d →
        1000 ≤ (pyInt ((d : ℚ) * (1000 / ((min image.w image.h : ℕ) : ℚ)))).toNat ∧
        d ≤ (pyInt ((d : ℚ) * (1000 / ((min image.w image.h : ℕ) : ℚ)))).toNat := by
      intro d hd hd0
      have hdQ : (0:ℚ) < (d : ℚ) := by exact_mod_cast hd0
      have hq_ge : (1000:ℚ) ≤ (d : ℚ) * (1000 / ((min image.w image.h : ℕ) : ℚ)) := by
        have hle : ((min image.w image.h : ℕ) : ℚ) ≤ (d : ℚ) := by exact_mod_cast hd
        calc (1000:ℚ)
            = ((min image.w image.h : ℕ) : ℚ) * (1000 / ((min image.w image.h : ℕ) : ℚ)) := by
              field_simp
          _ ≤ (d : ℚ) * (1000 / ((min image.w image.h : ℕ) : ℚ)) :=
              mul_le_mul_of_nonneg_right hle hscale0
      have hq_geD : (d:ℚ) ≤ (d : ℚ) * (1000 / ((min image.w image.h : ℕ) : ℚ)) := by
        calc (d:ℚ) = (d:ℚ) * 1 := (mul_one _).symm
          _ ≤ _ := mul_le_mul_of_nonneg_left hscale1 (le_of_lt hdQ)
      have hq0 : (0:ℚ) ≤ (d : ℚ) * (1000 / ((min image.w image.h : ℕ) : ℚ)) :=
        le_trans (by norm_num) hq_ge
      rw [pyInt_eq_floor hq0]
      constructor
      · have hfl : (1000:ℤ) ≤ ⌊(d : ℚ) * (1000 / ((min image.w image.h : ℕ) : ℚ))⌋ :=
          Int.le_floor.mpr (by exact_mod_cast hq_ge)
        exact (Int.le_toNat (le_trans (by norm_num) hfl)).mpr hfl
      · have hfl : (d:ℤ) ≤ ⌊(d : ℚ) * (1000 / ((min image.w image.h : ℕ) : ℚ))⌋ :=
          Int.le_floor.mpr (by exact_mod_cast hq_geD)
        exact (Int.le_toNat (le_trans (by positivity) hfl)).mpr hfl
    refine ⟨fun h1 h2 => absurd hcond (by omega), fun _ => ⟨hw', hh', ?_, ?_⟩, ?_, ?_⟩
    · rw [hw']; exact (key image.w (min_le_left _ _) hw).1
    · rw [hh']; exact (key image.h (min_le_right _ _) hh).1
    · rw [hw']; exact (key image.w (min_le_left _ _) hw).2
    · rw [hh']; exact (key image.h (min_le_right _ _) hh).2
  · have hw' : (preprocess_image ops image).w = image.w := by
      simp [preprocess_image, hcond]
    have hh' : (preprocess_image ops image).h = image.h := by
      simp [preprocess_image, hcond]
    refine ⟨fun _ _ => ⟨hw', hh'⟩, fun hm => absurd (min_lt_iff.mp hm) hcond, ?_, ?_⟩
    · rw [hw']
    · rw [hh']

/-- Claim C2: a detection survives the area filter of `extract_documents`
iff its box-area to (possibly enhanced) image-area ratio lies strictly
between `min_area_ratio` and `max_area_ratio`; in particular, on a
1000×1000 image with the 0.02/0.8 defaults, boxes of area 100 and 900000
are excluded and a box of area 300000 is retained (only index 2
survives). -/
theorem c2_area_filter_strict_window :
    (∀ (boxes : List Box) (img_area mnr mxr : ℚ) (i : ℕ), i < boxes.length →
      (i ∈ areaFilterIndices boxes img_area mnr mxr ↔
        (mnr < boxArea (boxes.getD i default) / img_area ∧
          boxArea (boxes.getD i default) / img_area < mxr))) ∧
    areaFilterIndices [⟨0,0,10,10⟩, ⟨0,0,1000,900⟩, ⟨0,0,600,500⟩]
      (1000 * 1000) (1/50) (4/5) = [2] := by
  constructor
  · intro boxes img_area mnr mxr i hi
    simp [areaFilterIndices, List.mem_filter, List.mem_range, hi, boxArea]
  · have hr : List.range 3 = [0, 1, 2] := rfl
    simp only [areaFilterIndices, List.length_cons, List.length_nil, hr]
    norm_num [List.filter, List.getD]

/-- Claim C2 witness: the general criterion applied at concrete indices of
the 1000×1000 example — index 2 (ratio 0.3) is in the filter's output,
index 0 (ratio 0.0001) is not. -/
theorem c2_area_filter_strict_window_witness :
    2 ∈ areaFilterIndices [⟨0,0,10,10⟩, ⟨0,0,1000,900⟩, ⟨0,0,600,500⟩]
        (1000 * 1000) (1/50) (4/5) ∧
    0 ∉ areaFilterIndices [⟨0,0,10,10⟩, ⟨0,0,1000,900⟩, ⟨0,0,600,500⟩]
        (1000 * 1000) (1/50) (4/5) := by
  constructor
  · exact (c2_area_filter_strict_window.1 _ _ _ _ 2 (by norm_num)).mpr
      (by norm_num [boxArea, List.getD])
  · intro hmem
    have h := (c2_area_filter_strict_window.1 _ _ _ _ 0 (by norm_num)).mp hmem
    norm_num [boxArea, List.getD] at h

/-- Claim C5: the caller-supplied `iou` parameter of `extract_documents`
reaches only the detector call, so two runs differing only in `iou` whose
detector outputs coincide produce identical results; and the overlap
suppression always runs with the fixed default threshold 0.3 (the source
calls `filter_overlapping_detections` without an `iou_threshold`
argument). -/
theorem c5_dedup_threshold_fixed (ops : PILOps) (loadModel : String → Model)
    (resizeMask : MaskResize) (image : Img) (model_path : String)
    (confidence iou1 iou2 : ℚ) (preprocess : Bool) (mnr mxr : ℚ)
    (hdet : loadModel "invoice-extractor-final/best (1).pt"
        (if preprocess then preprocess_image ops image else image) confidence iou1 =
      loadModel "invoice-extractor-final/best (1).pt"
        (if preprocess then preprocess_image ops image else image) confidence iou2) :
    extract_documents ops loadModel resizeMask image model_path
        confidence iou1 preprocess mnr mxr =
      extract_documents ops loadModel resizeMask image model_path
        confidence iou2 preprocess mnr mxr ∧
    (∀ (bs : List Box) (cs : List ℚ),
      filter_overlapping_detections bs cs = filter_overlapping_detections bs cs (3/10)) := by
  refine ⟨?_, fun bs cs => rfl⟩
  simp only [extract_documents]
  rw [hdet]

/-- Claim C5 witness: a detector that ignores `iou`; runs at `iou = 0.6`
and `iou = 0.9` coincide. -/
theorem c5_dedup_threshold_fixed_witness :
    extract_documents opsId loadConst resizeId imgA "a" (1/2) (3/5) true (1/50) (4/5) =
      extract_documents opsId loadConst resizeId imgA "a" (1/2) (9/10) true (1/50) (4/5) :=
  (c5_dedup_threshold_fixed opsId loadConst resizeId imgA "a" (1/2) (3/5) (9/10)
    true (1/50) (4/5) rfl).1

/-- Claim C8: "nothing found" is never an error — `extract_documents`
returns `[]` when the detector yields zero detections and when the area
filter empties the detection set, and `extract_single_document` returns
`none` exactly when `extract_documents` (at its default area-ratio window)
returns `[]`, otherwise the first (highest-confidence) candidate's image
and confidence, with no logic of its own. -/
theorem c8_nothing_found_not_error (ops : PILOps) (lm : String → Model)
    (rm : MaskResize) (image : Img) (mp : String) (conf iou : ℚ) (pre : Bool)
    (mnr mxr : ℚ) :
    ((lm "invoice-extractor-final/best (1).pt"
          (if pre then preprocess_image ops image else image) conf iou).boxes.length = 0 →
      extract_documents ops lm rm image mp conf iou pre mnr mxr = []) ∧
    (areaFilterIndices
        (lm "invoice-extractor-final/best (1).pt"
          (if pre then preprocess_image ops image else image) conf iou).boxes
        (((if pre then preprocess_image ops image else image).w : ℚ) *
          ((if pre then preprocess_image ops image else image).h : ℚ)) mnr mxr = [] →
      extract_documents ops lm rm image mp conf iou pre mnr mxr = []) ∧
    (extract_single_document ops lm rm image mp conf iou pre = none ↔
      extract_documents ops lm rm image mp conf iou pre (1/50) (4/5) = []) ∧
    (∀ d cf b rest, extract_documents ops lm rm image mp conf iou pre (1/50) (4/5)
        = (d, cf, b) :: rest →
      extract_single_document ops lm rm image mp conf iou pre = some (d, cf)) := by
  refine ⟨?_, ?_, ?_, ?_⟩
  · intro h
    simp only [extract_documents]
    rw [if_pos h]
  · intro h
    simp only [extract_documents]
    by_cases h0 : (lm "invoice-extractor-final/best (1).pt"
        (if pre then preprocess_image ops image else image) conf iou).boxes.length = 0
    · rw [if_pos h0]
    · rw [if_neg h0, h]
      simp
  · simp only [extract_single_document]
    cases hE : extract_documents ops lm rm image mp conf iou pre (1/50) (4/5) with
    | nil => simp
    | cons hd tl =>
      obtain ⟨d, cf, b⟩ := hd
      simp
  · intro d cf b rest hE
    simp only [extract_single_document]
    rw [hE]

/-- Claim C8 witness: with a detector that finds nothing,
`extract_documents` returns `[]` and `extract_single_document` returns
`none`. -/
theorem c8_nothing_found_not_error_witness :
    extract_documents opsId loadConst resizeId imgA "a" (1/2) (3/5) true (1/50) (4/5) = [] ∧
    extract_single_document opsId loadConst resizeId imgA "a" (1/2) (3/5) true = none :=
  ⟨(c8_nothing_found_not_error opsId loadConst resizeId imgA "a" (1/2) (3/5) true
      (1/50) (4/5)).1 rfl,
   (c8_nothing_found_not_error opsId loadConst resizeId imgA "a" (1/2) (3/5) true
      (1/50) (4/5)).2.2.1.mpr
    ((c8_nothing_found_not_error opsId loadConst resizeId imgA "a" (1/2) (3/5) true
      (1/50) (4/5)).1 rfl)⟩

/-- Claim C10: `model_path` has no effect — the detector is loaded from the
hard-coded checkpoint path and `model_path` is never read, so both
extraction entry points give identical results for any two paths. -/
theorem c10_model_path_unused (ops : PILOps) (loadModel : String → Model)
    (resizeMask : MaskResize) (image : Img) (p q : String)
    (confidence iou : ℚ) (preprocess : Bool) (mnr mxr : ℚ) :
    extract_documents ops loadModel resizeMask image p
        confidence iou preprocess mnr mxr =
      extract_documents ops loadModel resizeMask image q
        confidence iou preprocess mnr mxr ∧
    extract_single_document ops loadModel resizeMask image p confidence iou preprocess =
      extract_single_document ops loadModel resizeMask image q confidence iou preprocess :=
  ⟨rfl, rfl⟩

/-- Claim C9 witness: a 500×800 image; both output dimensions reach at
least 1000 (the shorter dimension in particular). -/
theorem c9_enhancer_upscales_witness :
    1000 ≤ (preprocess_image opsId ⟨500, 800, fun _ _ => (0, 0, 0)⟩).w ∧
    1000 ≤ (preprocess_image opsId ⟨500, 800, fun _ _ => (0, 0, 0)⟩).h :=
  ⟨((c9_enhancer_upscales opsId ⟨500, 800, fun _ _ => (0, 0, 0)⟩
      (by decide) (by decide)).2.1 (by decide)).2.2.1,
   ((c9_enhancer_upscales opsId ⟨500, 800, fun _ _ => (0, 0, 0)⟩
      (by decide) (by decide)).2.1 (by decide)).2.2.2⟩

/-- Claim C3: the localization pipeline's output satisfies all three
invariants simultaneously — `extract_documents` is exactly the int-box
projection of `localizeCandidates` (same images, confidences and order);
the candidate list is sorted by confidence descending; no two candidates'
source boxes have IoU above the fixed 0.3 overlap threshold; and every
candidate's box-area to (possibly enhanced) image-area ratio lies strictly
inside the `(min_area_ratio, max_area_ratio)` window. -/
theorem c3_localize_invariants (ops : PILOps) (lm : String → Model) (rm : MaskResize)
    (image : Img) (mp : String) (conf iou : ℚ) (pre : Bool) (mnr mxr : ℚ) :
    extract_documents ops lm rm image mp conf iou pre mnr mxr =
      List.map (fun d => (d.1, d.2.1, boxIntTuple d.2.2))
        (localizeCandidates ops lm rm image mp conf iou pre mnr mxr) ∧
    List.Pairwise confDesc (localizeCandidates ops lm rm image mp conf iou pre mnr mxr) ∧
    List.Pairwise confDesc (extract_documents ops lm rm image mp conf iou pre mnr mxr) ∧
    List.Pairwise (fun d1 d2 => iouVal d1.2.2 d2.2.2 ≤ 3/10)
      (localizeCandidates ops lm rm image mp conf iou pre mnr mxr) ∧
    ∀ d ∈ localizeCandidates ops lm rm image mp conf iou pre mnr mxr,
      mnr < boxArea d.2.2 /
          (((if pre then preprocess_image ops image else image).w : ℚ) *
            ((if pre then preprocess_image ops image else image).h : ℚ)) ∧
      boxArea d.2.2 /
          (((if pre then preprocess_image ops image else image).w : ℚ) *
            ((if pre then preprocess_image ops image else image).h : ℚ)) < mxr := by
  have hproj : extract_documents ops lm rm image mp conf iou pre mnr mxr =
      List.map (fun d => (d.1, d.2.1, boxIntTuple d.2.2))
        (localizeCandidates ops lm rm image mp conf iou pre mnr mxr) := by
    simp only [extract_documents, localizeCandidates]
    by_cases h0 : (lm "invoice-extractor-final/best (1).pt"
        (if pre then preprocess_image ops image else image) conf iou).boxes.length = 0
    · rw [if_pos h0, if_pos h0]
      rfl
    · rw [if_neg h0, if_neg h0]
      by_cases h1 : (areaFilterIndices
          (lm "invoice-extractor-final/best (1).pt"
            (if pre then preprocess_image ops image else image) conf iou).boxes
          (((if pre then preprocess_image ops image else image).w : ℚ) *
            ((if pre then preprocess_image ops image else image).h : ℚ))
          mnr mxr).isEmpty = true
      · rw [if_pos h1, if_pos h1]
        rfl
      · rw [if_neg h1, if_neg h1, insertionSort_proj, List.map_map]
        rfl
  have hsort : List.Pairwise confDesc
      (localizeCandidates ops lm rm image mp conf iou pre mnr mxr) := by
    simp only [localizeCandidates]
    set img2 := if pre then preprocess_image ops image else image with himg2
    split
    · exact List.Pairwise.nil
    · split
      · exact List.Pairwise.nil
      · exact List.sorted_insertionSort confDesc _
  refine ⟨hproj, hsort, ?_, ?_, ?_⟩
  · rw [hproj]
    exact List.pairwise_map.mpr hsort
  · simp only [localizeCandidates]
    set img2 := if pre then preprocess_image ops image else image with himg2
    split
    · exact List.Pairwise.nil
    · split
      · exact List.Pairwise.nil
      · refine ((List.perm_insertionSort confDesc _).pairwise_iff ?_).mpr ?_
        · intro x y hxy
          rw [iouVal_comm]
          exact hxy
        · refine List.pairwise_map.mpr ?_
          exact pairwise_iou_filter_overlapping _ _ (by norm_num)
  · simp only [localizeCandidates]
    set img2 := if pre then preprocess_image ops image else image with himg2
    intro d hd
    split at hd
    · exact absurd hd (List.not_mem_nil d)
    · split at hd
      · exact absurd hd (List.not_mem_nil d)
      · have hd1 := (List.mem_insertionSort confDesc).mp hd
        obtain ⟨i, hik, hfd⟩ := List.mem_map.mp hd1
        subst hfd
        exact keep_box_window _ _ _ _ _ _ i hik

/-- Claim C3 witness: the theorem instantiated at a concrete detector; the
returned document list is exactly the int-box projection of the candidate
list. -/
theorem c3_localize_invariants_witness :
    extract_documents opsId loadConst resizeId imgA "a" (1/2) (3/5) true (1/50) (4/5) =
      List.map (fun d => (d.1, d.2.1, boxIntTuple d.2.2))
        (localizeCandidates opsId loadConst resizeId imgA "a" (1/2) (3/5) true (1/50) (4/5)) :=
  (c3_localize_invariants opsId loadConst resizeId imgA "a" (1/2) (3/5) true (1/50) (4/5)).1

end VLMInvoice
